import Mathlib

/-!
Verification of the Fourier epicycle drawing pipeline
(`src/main.rs` of shriar/Rust-Fourier-Epicycle-Drawer).

The development shallowly embeds the three core components:

* the Zhang–Suen skeleton thinner (`Neighbors`, `skeletonize`),
* the greedy nearest-neighbour path orderer (`sort_points`),
* the spectral decomposer (`fft_to_epicycles`).

Machine `u8` pixel values only ever matter through the test `> 0`, so a
pixel is a `Bool`; the `u8` neighbour values `0`/`1` are `Nat`.  `f32`
coordinates and spectral quantities are idealized as `ℚ` respectively
`ℝ`/`ℂ` where the claim at hand does not depend on rounding; NaN-dependent
behaviour of the sort comparator is modelled separately with `Option ℚ`.
-/

/-! ### The binary grid (`image::GrayImage` restricted to the operations used) -/

/-- A width×height binary image.  `px x y = true` models a pixel whose `Luma`
channel is `> 0` (foreground); coordinates outside the image are irrelevant
because the code only reads interior pixels and their 8-neighbourhoods. -/
structure Grid where
  width : Nat
  height : Nat
  px : Nat → Nat → Bool

/-- The `u8::from(value > 0)` conversion used by `Neighbors::get`. -/
def fgVal (b : Bool) : Nat := if b then 1 else 0

/-- `GrayImage::put_pixel`, restricted to the binary model. -/
def put_pixel (g : Grid) (x y : Nat) (v : Bool) : Grid :=
  { g with px := fun a b => if a = x ∧ b = y then v else g.px a b }

/-! ### `Neighbors`: the 8-connected neighbourhood sampler -/

/-- The 8 neighbouring pixels around a centre pixel, clockwise from North:
`p2`=N, `p3`=NE, `p4`=E, `p5`=SE, `p6`=S, `p7`=SW, `p8`=W, `p9`=NW. -/
structure Neighbors where
  p2 : Nat
  p3 : Nat
  p4 : Nat
  p5 : Nat
  p6 : Nat
  p7 : Nat
  p8 : Nat
  p9 : Nat

/-- `Neighbors::get`: sample the 8 neighbours of `(x, y)` in the image. -/
def Neighbors.get (g : Grid) (x y : Nat) : Neighbors where
  p2 := fgVal (g.px x (y - 1))
  p3 := fgVal (g.px (x + 1) (y - 1))
  p4 := fgVal (g.px (x + 1) y)
  p5 := fgVal (g.px (x + 1) (y + 1))
  p6 := fgVal (g.px x (y + 1))
  p7 := fgVal (g.px (x - 1) (y + 1))
  p8 := fgVal (g.px (x - 1) y)
  p9 := fgVal (g.px (x - 1) (y - 1))

/-- `Neighbors::count_transitions`: the number of `0 → 1` transitions in the
cyclic clockwise sequence of neighbours (8 adjacent pairs, wrapping from
`p9` back to `p2`). -/
def Neighbors.count_transitions (n : Neighbors) : Nat :=
  ([(n.p2, n.p3), (n.p3, n.p4), (n.p4, n.p5), (n.p5, n.p6),
    (n.p6, n.p7), (n.p7, n.p8), (n.p8, n.p9), (n.p9, n.p2)].filter
      (fun t => t.1 == 0 && t.2 == 1)).length

/-- `Neighbors::count_nonzero`: the total number of non-zero neighbours. -/
def Neighbors.count_nonzero (n : Neighbors) : Nat :=
  n.p2 + n.p3 + n.p4 + n.p5 + n.p6 + n.p7 + n.p8 + n.p9

/-! ### The Zhang–Suen thinner (`skeletonize`) -/

/-- The condition under which sub-iteration 1 of `skeletonize` pushes `(x, y)`
onto `to_clear`: the pixel is foreground (the `== 0 → continue` guard), the
transition count is 1, the non-zero count lies in `[2, 6]`, and
`p2·p4·p6 == 0` and `p4·p6·p8 == 0`. -/
def step1Cond (g : Grid) (x y : Nat) : Bool :=
  g.px x y &&
    (let n := Neighbors.get g x y
     n.count_transitions == 1 && decide (2 ≤ n.count_nonzero) &&
       decide (n.count_nonzero ≤ 6) && n.p2 * n.p4 * n.p6 == 0 &&
       n.p4 * n.p6 * n.p8 == 0)

/-- The condition under which sub-iteration 2 of `skeletonize` pushes `(x, y)`
onto `to_clear`: as `step1Cond` but with `p2·p4·p8 == 0` and `p2·p6·p8 == 0`. -/
def step2Cond (g : Grid) (x y : Nat) : Bool :=
  g.px x y &&
    (let n := Neighbors.get g x y
     n.count_transitions == 1 && decide (2 ≤ n.count_nonzero) &&
       decide (n.count_nonzero ≤ 6) && n.p2 * n.p4 * n.p8 == 0 &&
       n.p2 * n.p6 * n.p8 == 0)

/-- The interior pixels `(x, y)`, `1 ≤ x ≤ width−2`, `1 ≤ y ≤ height−2`, in
the raster order of the nested `for y … for x` loops of `skeletonize`. -/
def interiorRaster (w h : Nat) : List (Nat × Nat) :=
  (List.range (h - 2)).flatMap (fun j => (List.range (w - 2)).map (fun i => (i + 1, j + 1)))

/-- Every pixel of the image, used to count foreground pixels. -/
def allPixels (w h : Nat) : List (Nat × Nat) :=
  (List.range h).flatMap (fun y => (List.range w).map (fun x => (x, y)))

/-- The `to_clear` list collected by a sub-iteration scan of `ord` (the code
always scans `interiorRaster`; the traversal order is a parameter so that
order independence can be stated). -/
def marksOn (cond : Grid → Nat → Nat → Bool) (ord : List (Nat × Nat)) (g : Grid) :
    List (Nat × Nat) :=
  ord.filter (fun p => cond g p.1 p.2)

/-- The batch `for &(x, y) in &to_clear { next.put_pixel(x, y, Luma([0])) }`. -/
def clearAll (g : Grid) (l : List (Nat × Nat)) : Grid :=
  l.foldl (fun acc p => put_pixel acc p.1 p.2 false) g

/-- The `to_clear` list of sub-iteration 1 on grid `g`. -/
def step1Marks (g : Grid) : List (Nat × Nat) :=
  marksOn step1Cond (interiorRaster g.width g.height) g

/-- The `to_clear` list of sub-iteration 2 on grid `g`. -/
def step2Marks (g : Grid) : List (Nat × Nat) :=
  marksOn step2Cond (interiorRaster g.width g.height) g

/-- Sub-iteration 1: collect the marks from the current grid, then clear them
as one batch. -/
def subIter1 (g : Grid) : Grid := clearAll g (step1Marks g)

/-- Sub-iteration 2, run on the grid produced by sub-iteration 1. -/
def subIter2 (g : Grid) : Grid := clearAll g (step2Marks g)

/-- One iteration of the `while changed` loop: sub-iteration 1 followed by
sub-iteration 2 (the grid resulting from sub-iteration 1 is the input of
sub-iteration 2, matching `current = next.clone()` between the steps). -/
def outerPass (g : Grid) : Grid := subIter2 (subIter1 g)

/-- The `changed` flag of one iteration of the `while changed` loop: set when
either sub-iteration pushed at least one pixel onto `to_clear`. -/
def outerPassChanged (g : Grid) : Bool :=
  !(step1Marks g).isEmpty || !(step2Marks (subIter1 g)).isEmpty

/-- The number of foreground pixels of the grid, the termination measure of
the `while changed` loop. -/
def fgCount (g : Grid) : Nat :=
  (allPixels g.width g.height).countP (fun p => g.px p.1 p.2)

/-- The `while changed` loop of `skeletonize`, with explicit fuel.  Each
iteration recomputes the pass; the loop exits as soon as a full pass sets no
marks. -/
def skeletonizeAux : Nat → Grid → Grid
  | 0, g => g
  | fuel + 1, g =>
    if outerPassChanged g then skeletonizeAux fuel (outerPass g) else outerPass g

/-- `skeletonize`: run the two-sub-iteration loop to its fixed point.
`fgCount g + 1` units of fuel suffice because every continuing pass strictly
decreases `fgCount` (proved below). -/
def skeletonize (g : Grid) : Grid := skeletonizeAux (fgCount g + 1) g

/-! ### Order-parametrised variant of the thinner (for traversal-order independence) -/

/-- Sub-iteration 1 scanning the pixels in the order given by `ord`. -/
def subIter1On (ord : List (Nat × Nat)) (g : Grid) : Grid :=
  clearAll g (marksOn step1Cond ord g)

/-- Sub-iteration 2 scanning the pixels in the order given by `ord`. -/
def subIter2On (ord : List (Nat × Nat)) (g : Grid) : Grid :=
  clearAll g (marksOn step2Cond ord g)

/-- One outer pass scanning the pixels in the order given by `ord`. -/
def outerPassOn (ord : List (Nat × Nat)) (g : Grid) : Grid :=
  subIter2On ord (subIter1On ord g)

/-- The `changed` flag of one outer pass scanning in the order `ord`. -/
def outerPassChangedOn (ord : List (Nat × Nat)) (g : Grid) : Bool :=
  !(marksOn step1Cond ord g).isEmpty || !(marksOn step2Cond ord (subIter1On ord g)).isEmpty

/-- The `while changed` loop scanning every pass in the order `ord`. -/
def skeletonizeAuxOn (ord : List (Nat × Nat)) : Nat → Grid → Grid
  | 0, g => g
  | fuel + 1, g =>
    if outerPassChangedOn ord g then skeletonizeAuxOn ord fuel (outerPassOn ord g)
    else outerPassOn ord g

/-- `skeletonize` scanning every pass in the order `ord`. -/
def skeletonizeOn (ord : List (Nat × Nat)) (g : Grid) : Grid :=
  skeletonizeAuxOn ord (fgCount g + 1) g

example : fgVal true = 1 := by decide

example : interiorRaster 4 4 = [(1, 1), (2, 1), (1, 2), (2, 2)] := by decide

/-! ### Basic lemmas about the grid operations -/

theorem Grid.ext_pw {g₁ g₂ : Grid} (hw : g₁.width = g₂.width) (hh : g₁.height = g₂.height)
    (hpx : ∀ x y, g₁.px x y = g₂.px x y) : g₁ = g₂ := by
  cases g₁
  cases g₂
  simp only [Grid.mk.injEq]
  exact ⟨hw, hh, funext fun x => funext fun y => hpx x y⟩

theorem put_pixel_px (g : Grid) (x y a b : Nat) (v : Bool) :
    (put_pixel g x y v).px a b = if a = x ∧ b = y then v else g.px a b := rfl

theorem clearAll_cons (g : Grid) (p : Nat × Nat) (t : List (Nat × Nat)) :
    clearAll g (p :: t) = clearAll (put_pixel g p.1 p.2 false) t := rfl

theorem clearAll_width (g : Grid) (l : List (Nat × Nat)) :
    (clearAll g l).width = g.width := by
  induction l generalizing g with
  | nil => rfl
  | cons p t ih => rw [clearAll_cons, ih]; rfl

theorem clearAll_height (g : Grid) (l : List (Nat × Nat)) :
    (clearAll g l).height = g.height := by
  induction l generalizing g with
  | nil => rfl
  | cons p t ih => rw [clearAll_cons, ih]; rfl

theorem clearAll_px (g : Grid) (l : List (Nat × Nat)) (a b : Nat) :
    (clearAll g l).px a b = if (a, b) ∈ l then false else g.px a b := by
  induction l generalizing g with
  | nil => simp [clearAll]
  | cons p t ih =>
    obtain ⟨p1, p2⟩ := p
    rw [clearAll_cons, ih, put_pixel_px]
    by_cases h1 : (a, b) ∈ t
    · simp [h1]
    · by_cases h2 : a = p1 ∧ b = p2
      · simp [h1, h2, h2.1, h2.2]
      · simp [h1, h2, Prod.mk.injEq]

theorem mem_interiorRaster {w h : Nat} {p : Nat × Nat} :
    p ∈ interiorRaster w h ↔ 1 ≤ p.1 ∧ p.1 < w - 1 ∧ 1 ≤ p.2 ∧ p.2 < h - 1 := by
  obtain ⟨x, y⟩ := p
  simp only [interiorRaster, List.mem_flatMap, List.mem_map, List.mem_range, Prod.mk.injEq]
  constructor
  · rintro ⟨j, hj, i, hi, hx, hy⟩
    omega
  · rintro ⟨hx1, hx2, hy1, hy2⟩
    exact ⟨y - 1, by omega, x - 1, by omega, by omega, by omega⟩

theorem mem_allPixels {w h : Nat} {p : Nat × Nat} :
    p ∈ allPixels w h ↔ p.1 < w ∧ p.2 < h := by
  obtain ⟨x, y⟩ := p
  simp only [allPixels, List.mem_flatMap, List.mem_map, List.mem_range, Prod.mk.injEq]
  constructor
  · rintro ⟨b, hb, a, ha, rfl, rfl⟩
    exact ⟨ha, hb⟩
  · rintro ⟨hx, hy⟩
    exact ⟨y, hy, x, hx, rfl, rfl⟩

theorem mem_marksOn {cond : Grid → Nat → Nat → Bool} {ord : List (Nat × Nat)} {g : Grid}
    {p : Nat × Nat} : p ∈ marksOn cond ord g ↔ p ∈ ord ∧ cond g p.1 p.2 = true := by
  simp [marksOn, List.mem_filter]

/-- A strict counting lemma: if `q` dominates `p` on `l` and some element of
`l` satisfies `q` but not `p`, the `p`-count is strictly smaller. -/
theorem countP_lt_countP {α : Type} (l : List α) (p q : α → Bool)
    (himp : ∀ a ∈ l, p a = true → q a = true) (a₀ : α) (ha₀ : a₀ ∈ l)
    (hp : p a₀ = false) (hq : q a₀ = true) : l.countP p < l.countP q := by
  induction l with
  | nil => cases ha₀
  | cons b t ih =>
    rw [List.countP_cons, List.countP_cons]
    rcases List.mem_cons.mp ha₀ with rfl | hmem
    · have hmono := List.countP_mono_left
        (fun x hx hpx => himp x (List.mem_cons_of_mem _ hx) hpx)
      rw [if_neg (by simp [hp]), if_pos hq]
      omega
    · have hlt := ih (fun x hx hpx => himp x (List.mem_cons_of_mem _ hx) hpx) hmem
      have hhead : (if p b = true then 1 else 0) ≤ (if q b = true then 1 else 0) := by
        by_cases hpb : p b = true
        · simp [hpb, himp b (List.mem_cons_self _ _) hpb]
        · simp [hpb]
      omega

theorem fgCount_clearAll_le (g : Grid) (l : List (Nat × Nat)) :
    fgCount (clearAll g l) ≤ fgCount g := by
  unfold fgCount
  rw [clearAll_width, clearAll_height]
  refine List.countP_mono_left fun p _ hp => ?_
  rw [clearAll_px] at hp
  by_cases hm : (p.1, p.2) ∈ l
  · rw [if_pos hm] at hp
    cases hp
  · rwa [if_neg hm] at hp

theorem fgCount_clearAll_lt (g : Grid) (l : List (Nat × Nat)) (p₀ : Nat × Nat)
    (hmem : p₀ ∈ l) (hw : p₀.1 < g.width) (hh : p₀.2 < g.height)
    (hfg : g.px p₀.1 p₀.2 = true) : fgCount (clearAll g l) < fgCount g := by
  unfold fgCount
  rw [clearAll_width, clearAll_height]
  refine countP_lt_countP _ _ _ (fun p _ hp => ?_) p₀ (mem_allPixels.mpr ⟨hw, hh⟩) ?_ hfg
  · rw [clearAll_px] at hp
    by_cases hm : (p.1, p.2) ∈ l
    · rw [if_pos hm] at hp
      cases hp
    · rwa [if_neg hm] at hp
  · rw [clearAll_px, if_pos hmem]

theorem step1Cond_fg {g : Grid} {x y : Nat} (h : step1Cond g x y = true) : g.px x y = true := by
  simp only [step1Cond, Bool.and_eq_true] at h
  exact h.1

theorem step2Cond_fg {g : Grid} {x y : Nat} (h : step2Cond g x y = true) : g.px x y = true := by
  simp only [step2Cond, Bool.and_eq_true] at h
  exact h.1

theorem clearAll_nil (g : Grid) : clearAll g [] = g := rfl

theorem subIter1_width (g : Grid) : (subIter1 g).width = g.width := clearAll_width _ _

theorem subIter1_height (g : Grid) : (subIter1 g).height = g.height := clearAll_height _ _

theorem outerPass_width (g : Grid) : (outerPass g).width = g.width := by
  unfold outerPass subIter2
  rw [clearAll_width, subIter1_width]

theorem outerPass_height (g : Grid) : (outerPass g).height = g.height := by
  unfold outerPass subIter2
  rw [clearAll_height, subIter1_height]

/-! ### Termination and the fixed point of the thinning loop -/

theorem outerPassChanged_false_iff {g : Grid} :
    outerPassChanged g = false ↔ step1Marks g = [] ∧ step2Marks (subIter1 g) = [] := by
  simp [outerPassChanged, List.isEmpty_iff]

theorem outerPass_eq_of_not_changed {g : Grid} (h : outerPassChanged g = false) :
    outerPass g = g := by
  obtain ⟨h1, h2⟩ := outerPassChanged_false_iff.mp h
  have hs1 : subIter1 g = g := by
    unfold subIter1
    rw [h1, clearAll_nil]
  unfold outerPass subIter2
  rw [hs1]
  rw [hs1] at h2
  rw [h2, clearAll_nil]

/-- A mark of either sub-iteration is an interior foreground pixel. -/
theorem marks_bound {cond : Grid → Nat → Nat → Bool} {g : Grid} {p : Nat × Nat}
    (hmem : p ∈ marksOn cond (interiorRaster g.width g.height) g) :
    p.1 < g.width ∧ p.2 < g.height := by
  have h := (mem_marksOn.mp hmem).1
  have := mem_interiorRaster.mp h
  omega

theorem fgCount_outerPass_lt {g : Grid} (h : outerPassChanged g = true) :
    fgCount (outerPass g) < fgCount g := by
  by_cases h1 : step1Marks g = []
  · have hs1 : subIter1 g = g := by
      unfold subIter1
      rw [h1, clearAll_nil]
    have h2 : step2Marks (subIter1 g) ≠ [] := by
      intro hc
      rw [outerPassChanged, h1, hc] at h
      simp at h
    rw [hs1] at h2
    obtain ⟨p₀, hp₀⟩ := List.exists_mem_of_ne_nil _ h2
    have hb := @marks_bound step2Cond _ _ hp₀
    unfold outerPass subIter2
    rw [hs1]
    exact fgCount_clearAll_lt g _ p₀ hp₀ hb.1 hb.2
      (step2Cond_fg (mem_marksOn.mp hp₀).2)
  · obtain ⟨p₀, hp₀⟩ := List.exists_mem_of_ne_nil _ h1
    have hb := @marks_bound step1Cond _ _ hp₀
    have hlt : fgCount (subIter1 g) < fgCount g :=
      fgCount_clearAll_lt g _ p₀ hp₀ hb.1 hb.2 (step1Cond_fg (mem_marksOn.mp hp₀).2)
    have hle : fgCount (outerPass g) ≤ fgCount (subIter1 g) := fgCount_clearAll_le _ _
    omega

theorem skeletonizeAux_fixed :
    ∀ (fuel : Nat) (g : Grid), fgCount g < fuel →
      outerPassChanged (skeletonizeAux fuel g) = false := by
  intro fuel
  induction fuel with
  | zero => intro g h; omega
  | succ n ih =>
    intro g h
    by_cases hch : outerPassChanged g = true
    · rw [skeletonizeAux, if_pos hch]
      exact ih _ (by have := fgCount_outerPass_lt hch; omega)
    · have hch' : outerPassChanged g = false := by
        cases hb : outerPassChanged g
        · rfl
        · exact absurd hb hch
      rw [skeletonizeAux, if_neg hch, outerPass_eq_of_not_changed hch']
      exact hch'

/-! ### Traversal-order independence of the batch-apply passes -/

theorem clearAll_congr (g : Grid) {l₁ l₂ : List (Nat × Nat)} (h : ∀ p, p ∈ l₁ ↔ p ∈ l₂) :
    clearAll g l₁ = clearAll g l₂ :=
  Grid.ext_pw (by rw [clearAll_width, clearAll_width])
    (by rw [clearAll_height, clearAll_height])
    (fun a b => by rw [clearAll_px, clearAll_px, if_congr (h (a, b)) rfl rfl])

theorem isEmpty_eq_of_perm {α : Type} {l₁ l₂ : List α} (h : l₁.Perm l₂) :
    l₁.isEmpty = l₂.isEmpty := by
  cases l₁ with
  | nil =>
    cases l₂ with
    | nil => rfl
    | cons b t => exact absurd h.length_eq (by simp)
  | cons a s =>
    cases l₂ with
    | nil => exact absurd h.length_eq (by simp)
    | cons b t => rfl

theorem subIter1On_eq {g : Grid} {ord : List (Nat × Nat)}
    (h : ord.Perm (interiorRaster g.width g.height)) : subIter1On ord g = subIter1 g :=
  clearAll_congr g fun p => by
    rw [show step1Marks g = marksOn step1Cond (interiorRaster g.width g.height) g from rfl,
      mem_marksOn, mem_marksOn]
    exact and_congr_left' h.mem_iff

theorem subIter2On_eq {g : Grid} {ord : List (Nat × Nat)}
    (h : ord.Perm (interiorRaster g.width g.height)) : subIter2On ord g = subIter2 g :=
  clearAll_congr g fun p => by
    rw [show step2Marks g = marksOn step2Cond (interiorRaster g.width g.height) g from rfl,
      mem_marksOn, mem_marksOn]
    exact and_congr_left' h.mem_iff

theorem outerPassOn_eq {g : Grid} {ord : List (Nat × Nat)}
    (h : ord.Perm (interiorRaster g.width g.height)) : outerPassOn ord g = outerPass g := by
  unfold outerPassOn outerPass
  rw [subIter1On_eq h]
  exact subIter2On_eq (by rw [subIter1_width, subIter1_height]; exact h)

theorem outerPassChangedOn_eq {g : Grid} {ord : List (Nat × Nat)}
    (h : ord.Perm (interiorRaster g.width g.height)) :
    outerPassChangedOn ord g = outerPassChanged g := by
  unfold outerPassChangedOn outerPassChanged
  rw [subIter1On_eq h]
  unfold step1Marks step2Marks marksOn
  rw [isEmpty_eq_of_perm (h.filter _)]
  rw [isEmpty_eq_of_perm
    ((show ord.Perm (interiorRaster (subIter1 g).width (subIter1 g).height) by
      rw [subIter1_width, subIter1_height]; exact h).filter _)]

theorem skeletonizeAuxOn_eq (ord : List (Nat × Nat)) :
    ∀ (fuel : Nat) (g : Grid), ord.Perm (interiorRaster g.width g.height) →
      skeletonizeAuxOn ord fuel g = skeletonizeAux fuel g := by
  intro fuel
  induction fuel with
  | zero => intro g _; rfl
  | succ n ih =>
    intro g h
    rw [skeletonizeAuxOn, skeletonizeAux, outerPassChangedOn_eq h, outerPassOn_eq h]
    by_cases hch : outerPassChanged g = true
    · rw [if_pos hch, if_pos hch]
      exact ih _ (by rw [outerPass_width, outerPass_height]; exact h)
    · rw [if_neg hch, if_neg hch]

/-! ### Spec-side formulation of the removal predicate (§4.2 of the spec) -/

/-- Spec-side neighbour value N (North), as a 0/1 integer. -/
def nN (g : Grid) (x y : Nat) : Nat := fgVal (g.px x (y - 1))

/-- Spec-side neighbour value NE (North-East). -/
def nNE (g : Grid) (x y : Nat) : Nat := fgVal (g.px (x + 1) (y - 1))

/-- Spec-side neighbour value E (East). -/
def nE (g : Grid) (x y : Nat) : Nat := fgVal (g.px (x + 1) y)

/-- Spec-side neighbour value SE (South-East). -/
def nSE (g : Grid) (x y : Nat) : Nat := fgVal (g.px (x + 1) (y + 1))

/-- Spec-side neighbour value S (South). -/
def nS (g : Grid) (x y : Nat) : Nat := fgVal (g.px x (y + 1))

/-- Spec-side neighbour value SW (South-West). -/
def nSW (g : Grid) (x y : Nat) : Nat := fgVal (g.px (x - 1) (y + 1))

/-- Spec-side neighbour value W (West). -/
def nW (g : Grid) (x y : Nat) : Nat := fgVal (g.px (x - 1) y)

/-- Spec-side neighbour value NW (North-West). -/
def nNW (g : Grid) (x y : Nat) : Nat := fgVal (g.px (x - 1) (y - 1))

/-- Spec-side: the neighbours sampled clockwise starting at North:
N, NE, E, SE, S, SW, W, NW. -/
def specNeighborSeq (g : Grid) (x y : Nat) : List Nat :=
  [nN g x y, nNE g x y, nE g x y, nSE g x y, nS g x y, nSW g x y, nW g x y, nNW g x y]

/-- Spec-side: the number of clockwise-adjacent neighbour pairs that go from
background (0) to foreground (1), cyclically (the pair of the last and the
first neighbour is included via `List.rotate`). -/
def specTransitions (ns : List Nat) : Nat :=
  ((ns.zip (ns.rotate 1)).filter (fun t => decide (t.1 = 0 ∧ t.2 = 1))).length

/-- Spec-side removal condition of sub-iteration 1: transition count 1,
non-zero count in `[2, 6]`, and `N·E·S = 0` and `E·S·W = 0`. -/
def specCond1 (g : Grid) (x y : Nat) : Prop :=
  specTransitions (specNeighborSeq g x y) = 1 ∧
    2 ≤ (specNeighborSeq g x y).sum ∧ (specNeighborSeq g x y).sum ≤ 6 ∧
    nN g x y * nE g x y * nS g x y = 0 ∧ nE g x y * nS g x y * nW g x y = 0

/-- Spec-side removal condition of sub-iteration 2: transition count 1,
non-zero count in `[2, 6]`, and `N·E·W = 0` and `N·S·W = 0`. -/
def specCond2 (g : Grid) (x y : Nat) : Prop :=
  specTransitions (specNeighborSeq g x y) = 1 ∧
    2 ≤ (specNeighborSeq g x y).sum ∧ (specNeighborSeq g x y).sum ≤ 6 ∧
    nN g x y * nE g x y * nW g x y = 0 ∧ nN g x y * nS g x y * nW g x y = 0

theorem specTransitions_eq (n : Neighbors) :
    specTransitions [n.p2, n.p3, n.p4, n.p5, n.p6, n.p7, n.p8, n.p9] =
      n.count_transitions := by
  have hpred : (fun t : Nat × Nat => t.1 == 0 && t.2 == 1) =
      (fun t : Nat × Nat => decide (t.1 = 0 ∧ t.2 = 1)) := by
    funext t
    rw [Bool.decide_and, Bool.beq_eq_decide_eq, Bool.beq_eq_decide_eq]
  unfold specTransitions Neighbors.count_transitions
  rw [hpred]
  rfl

theorem specTransitions_spec_eq (g : Grid) (x y : Nat) :
    specTransitions (specNeighborSeq g x y) = (Neighbors.get g x y).count_transitions :=
  specTransitions_eq (Neighbors.get g x y)

theorem specSum_eq (n : Neighbors) :
    [n.p2, n.p3, n.p4, n.p5, n.p6, n.p7, n.p8, n.p9].sum = n.count_nonzero := by
  simp [Neighbors.count_nonzero]
  omega

theorem specSum_spec_eq (g : Grid) (x y : Nat) :
    (specNeighborSeq g x y).sum = (Neighbors.get g x y).count_nonzero :=
  specSum_eq (Neighbors.get g x y)

theorem step1Cond_iff_spec (g : Grid) (x y : Nat) :
    step1Cond g x y = true ↔ g.px x y = true ∧ specCond1 g x y := by
  unfold specCond1
  rw [specTransitions_spec_eq, specSum_spec_eq]
  simp only [step1Cond, Bool.and_eq_true, beq_iff_eq, decide_eq_true_eq]
  unfold nN nE nS nW
  simp only [Neighbors.get]
  tauto

theorem step2Cond_iff_spec (g : Grid) (x y : Nat) :
    step2Cond g x y = true ↔ g.px x y = true ∧ specCond2 g x y := by
  unfold specCond2
  rw [specTransitions_spec_eq, specSum_spec_eq]
  simp only [step2Cond, Bool.and_eq_true, beq_iff_eq, decide_eq_true_eq]
  unfold nN nS nW nE
  simp only [Neighbors.get]
  tauto

/-! ### A concrete grid used to instantiate the thinning theorems:
a 4×4 image whose two middle rows are foreground. -/

/-- A 4×4 grid with rows `y = 1` and `y = 2` fully foreground. -/
def gridW : Grid :=
  { width := 4, height := 4, px := fun x y => decide (x < 4) && (y == 1 || y == 2) }

example : outerPassChanged gridW = true := by decide

example : (1, 2) ∈ step1Marks gridW := by decide

/-! ### Claim theorems for the skeleton thinner -/

/-- Claim C2: in each thinning sub-iteration, an interior foreground pixel is
marked for removal iff its clockwise 0-to-1 transition count equals 1, its
non-zero-neighbour count is between 2 and 6 inclusive, and the
sub-iteration's corner condition holds (sub-iteration 1: `N·E·S = 0` and
`E·S·W = 0`; sub-iteration 2: `N·E·W = 0` and `N·S·W = 0`), the neighbours
being sampled clockwise from North. -/
theorem subiteration_marking_iff (g : Grid) (x y : Nat) (hx1 : 1 ≤ x)
    (hx2 : x < g.width - 1) (hy1 : 1 ≤ y) (hy2 : y < g.height - 1)
    (hfg : g.px x y = true) :
    ((x, y) ∈ step1Marks g ↔ specCond1 g x y) ∧
      ((x, y) ∈ step2Marks g ↔ specCond2 g x y) := by
  have hmem : (x, y) ∈ interiorRaster g.width g.height :=
    mem_interiorRaster.mpr ⟨hx1, hx2, hy1, hy2⟩
  constructor
  · rw [show step1Marks g = marksOn step1Cond (interiorRaster g.width g.height) g from rfl,
      mem_marksOn]
    simp only [hmem, true_and]
    rw [step1Cond_iff_spec]
    simp [hfg]
  · rw [show step2Marks g = marksOn step2Cond (interiorRaster g.width g.height) g from rfl,
      mem_marksOn]
    simp only [hmem, true_and]
    rw [step2Cond_iff_spec]
    simp [hfg]

/-- Witness for C2: the marking equivalence instantiated at the interior
foreground pixel `(1, 2)` of the concrete grid `gridW`. -/
theorem subiteration_marking_iff_witness :
    ((1, 2) ∈ step1Marks gridW ↔ specCond1 gridW 1 2) ∧
      ((1, 2) ∈ step2Marks gridW ↔ specCond2 gridW 1 2) :=
  subiteration_marking_iff gridW 1 2 (by decide) (by decide) (by decide) (by decide)
    (by decide)

/-- Claim C6: thinning is idempotent — applying `skeletonize` to the result
of `skeletonize` returns the same grid. -/
theorem skeletonize_idempotent (g : Grid) : skeletonize (skeletonize g) = skeletonize g := by
  have hfix : outerPassChanged (skeletonize g) = false :=
    skeletonizeAux_fixed _ _ (Nat.lt_succ_self _)
  show skeletonizeAux (fgCount (skeletonize g) + 1) (skeletonize g) = skeletonize g
  rw [skeletonizeAux, if_neg (by simp [hfix])]
  exact outerPass_eq_of_not_changed hfix

/-- Claim C7: the thinning loop terminates — every outer pass that sets the
`changed` flag strictly decreases the number of foreground pixels, the flag
is cleared exactly when a full outer pass removes zero pixels, and the grid
returned by `skeletonize` is a fixed point of the outer pass. -/
theorem skeletonize_terminates (g : Grid) :
    (outerPassChanged g = true → fgCount (outerPass g) < fgCount g) ∧
      (outerPassChanged g = false ↔ outerPass g = g) ∧
      outerPassChanged (skeletonize g) = false ∧
      outerPass (skeletonize g) = skeletonize g := by
  refine ⟨fun h => fgCount_outerPass_lt h, ⟨fun h => outerPass_eq_of_not_changed h,
    fun h => ?_⟩, skeletonizeAux_fixed _ _ (Nat.lt_succ_self _),
    outerPass_eq_of_not_changed (skeletonizeAux_fixed _ _ (Nat.lt_succ_self _))⟩
  cases hb : outerPassChanged g
  · rfl
  · have := fgCount_outerPass_lt hb
    rw [h] at this
    omega

/-- Witness for C7: on the concrete grid `gridW` the first outer pass sets
the `changed` flag, so the pass strictly decreases the foreground count. -/
theorem skeletonize_terminates_witness : fgCount (outerPass gridW) < fgCount gridW :=
  (skeletonize_terminates gridW).1 (by decide)

/-- Claim C8: each sub-iteration computes all removal decisions from the
grid snapshot at the start of the sub-iteration and applies them as one
batch, so the result of `skeletonize` does not depend on the traversal
order of the pixels within a pass: scanning in any permutation of the
raster order yields the same grid. -/
theorem skeletonize_order_independent (g : Grid) (ord : List (Nat × Nat))
    (h : ord.Perm (interiorRaster g.width g.height)) :
    skeletonizeOn ord g = skeletonize g :=
  skeletonizeAuxOn_eq ord _ g h

/-- Witness for C8: thinning `gridW` scanning the interior pixels in
reversed raster order equals the raster-order result. -/
theorem skeletonize_order_independent_witness :
    skeletonizeOn ((interiorRaster 4 4).reverse) gridW = skeletonize gridW :=
  skeletonize_order_independent gridW _ (List.reverse_perm _)

/-! ### The path orderer (`sort_points`)

The `f32` point coordinates are idealized as exact rationals: the
permutation property depends only on the index bookkeeping of the loop,
not on the numeric values of the distances. -/

/-- The squared Euclidean distance
`(current.0 − point.0)² + (current.1 − point.1)²`. -/
def dist_sq (c p : ℚ × ℚ) : ℚ := (c.1 - p.1) ^ 2 + (c.2 - p.2) ^ 2

/-- One step of the `for (i, &point) in points.iter().enumerate()` scan.
The state is `(nearest_idx, min_dist_sq)`; `none` models the initial
`f32::MAX`, which every computed distance undercuts. -/
def nearestStep (c : ℚ × ℚ) (st : Nat × Option ℚ) (ip : Nat × (ℚ × ℚ)) :
    Nat × Option ℚ :=
  match st.2 with
  | none => (ip.1, some (dist_sq c ip.2))
  | some m => if dist_sq c ip.2 < m then (ip.1, some (dist_sq c ip.2)) else st

/-- The index of the remaining point nearest to `c` (first-encountered on
ties, because the update uses a strict `<`), starting from
`nearest_idx = 0`. -/
def findNearestIdx (c : ℚ × ℚ) (pts : List (ℚ × ℚ)) : Nat :=
  (pts.enum.foldl (nearestStep c) ((0 : Nat), (none : Option ℚ))).1

/-- `Vec::swap_remove(i)`: the last element moves into position `i` and the
vector shrinks by one. -/
def swap_remove (l : List (ℚ × ℚ)) (i : Nat) : List (ℚ × ℚ) :=
  (l.set i (l.getLastD (0, 0))).dropLast

/-- The `while !points.is_empty()` loop of `sort_points`: select the nearest
remaining point, `swap_remove` it, append it, and recurse from it. -/
def sortLoop (cur : ℚ × ℚ) (pts : List (ℚ × ℚ)) : List (ℚ × ℚ) :=
  if h : pts = [] then []
  else
    let i := findNearestIdx cur pts
    let nxt := pts.getD i (0, 0)
    nxt :: sortLoop nxt (swap_remove pts i)
termination_by pts.length
decreasing_by
  simp only [swap_remove, List.length_dropLast, List.length_set]
  have := List.length_pos.mpr h
  omega

/-- `sort_points`: greedy nearest-neighbour ordering.  The first point (in
raster-scan enumeration order) seeds the output (`points.remove(0)`), then
the loop consumes the rest. -/
def sort_points (points : List (ℚ × ℚ)) : List (ℚ × ℚ) :=
  match points with
  | [] => []
  | p :: rest => p :: sortLoop p rest

theorem nearestStep_cases (c : ℚ × ℚ) (st : Nat × Option ℚ) (ip : Nat × (ℚ × ℚ)) :
    (nearestStep c st ip).1 = ip.1 ∨ nearestStep c st ip = st := by
  rcases st with ⟨i, mo⟩
  cases mo with
  | none => left; rfl
  | some m =>
    by_cases h : dist_sq c ip.2 < m
    · left
      show (if dist_sq c ip.2 < m then (ip.1, some (dist_sq c ip.2))
        else (i, some m)).1 = ip.1
      rw [if_pos h]
    · right
      show (if dist_sq c ip.2 < m then (ip.1, some (dist_sq c ip.2))
        else (i, some m)) = (i, some m)
      rw [if_neg h]

theorem foldl_nearestStep_bound (c : ℚ × ℚ) (n : Nat) :
    ∀ (l : List (Nat × (ℚ × ℚ))) (st : Nat × Option ℚ),
      (st.1 = 0 ∨ st.1 < n) → (∀ ip ∈ l, ip.1 < n) →
      ((l.foldl (nearestStep c) st).1 = 0 ∨ (l.foldl (nearestStep c) st).1 < n) := by
  intro l
  induction l with
  | nil => intro st hst _; exact hst
  | cons ip t ih =>
    intro st hst hl
    rw [List.foldl_cons]
    refine ih _ ?_ (fun q hq => hl q (List.mem_cons_of_mem _ hq))
    rcases nearestStep_cases c st ip with h | h
    · right; rw [h]; exact hl ip (List.mem_cons_self _ _)
    · rw [h]; exact hst

theorem findNearestIdx_lt {cur : ℚ × ℚ} {pts : List (ℚ × ℚ)} (h : pts ≠ []) :
    findNearestIdx cur pts < pts.length := by
  have hb : ∀ ip ∈ pts.enum, ip.1 < pts.length := by
    intro ip hip
    rw [List.enum_eq_zip_range] at hip
    obtain ⟨i, p⟩ := ip
    exact List.mem_range.mp (List.of_mem_zip hip).1
  have hpos : 0 < pts.length := List.length_pos.mpr h
  rcases foldl_nearestStep_bound cur pts.length pts.enum (0, none) (Or.inl rfl) hb with
    h0 | hlt
  · rw [findNearestIdx, h0]; exact hpos
  · exact hlt

theorem getLastD_of_ne_nil {l : List (ℚ × ℚ)} (h : l ≠ []) (d : ℚ × ℚ) :
    l.getLastD d = l.getLast h := by
  rw [List.getLastD_eq_getLast?, List.getLast?_eq_getLast l h]
  rfl

theorem swap_remove_perm :
    ∀ (l : List (ℚ × ℚ)) (i : Nat), i < l.length →
      List.Perm (l.getD i (0, 0) :: swap_remove l i) l := by
  intro l
  induction l with
  | nil => intro i hi; simp at hi
  | cons a t ih =>
    intro i hi
    cases i with
    | zero =>
      cases t with
      | nil => simp [swap_remove]
      | cons b s =>
        have hbs : (b :: s : List (ℚ × ℚ)) ≠ [] := List.cons_ne_nil _ _
        rw [List.getD_cons_zero, swap_remove,
          show (a :: b :: s).getLastD (0, 0) = (b :: s).getLast hbs by
            rw [List.getLastD_cons, getLastD_of_ne_nil hbs],
          show ((a :: b :: s).set 0 ((b :: s).getLast hbs)) =
            (b :: s).getLast hbs :: b :: s from rfl,
          List.dropLast_cons₂]
        refine List.Perm.cons a ?_
        conv_rhs => rw [← List.dropLast_concat_getLast hbs]
        exact (List.perm_append_singleton _ _).symm
    | succ i =>
      have hit : i < t.length := by simpa using hi
      have ht : t ≠ [] := by
        intro hc
        rw [hc] at hit
        simp at hit
      have hset : swap_remove (a :: t) (i + 1) = a :: swap_remove t i := by
        rw [swap_remove, swap_remove,
          show (a :: t).getLastD (0, 0) = t.getLastD (0, 0) by
            rw [List.getLastD_cons, getLastD_of_ne_nil ht, getLastD_of_ne_nil ht],
          List.set_cons_succ]
        refine List.dropLast_cons_of_ne_nil ?_
        intro hc
        apply ht
        have hlen := congrArg List.length hc
        rw [List.length_set] at hlen
        simpa using hlen
      rw [List.getD_cons_succ, hset]
      exact (List.Perm.swap a _ _).trans (List.Perm.cons a (ih i hit))

theorem sortLoop_perm (cur : ℚ × ℚ) (pts : List (ℚ × ℚ)) :
    List.Perm (sortLoop cur pts) pts := by
  generalize hn : pts.length = n
  induction n using Nat.strong_induction_on generalizing cur pts with
  | _ n ih =>
    rw [sortLoop]
    split
    · rename_i h
      rw [h]
    · rename_i h
      have hi : findNearestIdx cur pts < pts.length := findNearestIdx_lt h
      have hdec : (swap_remove pts (findNearestIdx cur pts)).length < n := by
        rw [swap_remove, List.length_dropLast, List.length_set]
        have := List.length_pos.mpr h
        omega
      exact (List.Perm.cons _ (ih _ hdec _ _ rfl)).trans (swap_remove_perm pts _ hi)

/-- Claim C3: the path orderer returns a permutation of its input — the
multiset of output points equals the multiset of input points, and the
lengths agree (for every finite input list, including the empty one). -/
theorem sort_points_perm (points : List (ℚ × ℚ)) :
    List.Perm (sort_points points) points ∧
      (sort_points points).length = points.length := by
  have hperm : List.Perm (sort_points points) points := by
    cases points with
    | nil => exact List.Perm.nil
    | cons p rest => exact List.Perm.cons p (sortLoop_perm p rest)
  exact ⟨hperm, hperm.length_eq⟩

/-! ### The spectral decomposer (`fft_to_epicycles`)

The `f32` spectral quantities are idealized as reals (`Complex.abs` for
`Complex::norm`, `Complex.arg` for `Complex::arg`); the NaN-dependent
behaviour of the sort comparator is modelled separately below. -/

/-- The constant `NUM_EPICYCLE_TERMS = 500` passed to `fft_to_epicycles`. -/
def NUM_EPICYCLE_TERMS : Nat := 500

/-- The constant `MIN_EPICYCLE_AMPLITUDE = 0.001`. -/
noncomputable def MIN_EPICYCLE_AMPLITUDE : ℝ := 1 / 1000

/-- A rotating circle (epicycle) in the Fourier series. -/
structure Epicycle where
  freq : ℝ
  amp : ℝ
  phase : ℝ

/-- The per-bin closure of `fft_to_epicycles`: bin `k` of an `n`-point
spectrum becomes an epicycle whose signed frequency is `k` for `k ≤ n / 2`
(integer division) and `k − n` otherwise, whose amplitude is `|val| / n`,
and whose phase is `arg val`. -/
noncomputable def epicycle_of_bin (n k : Nat) (val : ℂ) : Epicycle where
  freq := if k ≤ n / 2 then (k : ℝ) else (((k : ℤ) - (n : ℤ) : ℤ) : ℝ)
  amp := Complex.abs val / (n : ℝ)
  phase := Complex.arg val

/-- The candidate list collected by the iterator chain of
`fft_to_epicycles`: every indexed bin mapped to its epicycle, keeping only
amplitudes strictly above `MIN_EPICYCLE_AMPLITUDE`. -/
noncomputable def candidate_epicycles (buffer : List ℂ) : List Epicycle :=
  (buffer.enum.map (fun kv => epicycle_of_bin buffer.length kv.1 kv.2)).filter
    (fun e => decide (MIN_EPICYCLE_AMPLITUDE < e.amp))

/-- `fft_to_epicycles`: build the candidates, sort them by amplitude
descending (the comparator compares `b.amp` against `a.amp`; it is total on
real amplitudes), and keep at most `num_terms` terms (`truncate`). -/
noncomputable def fft_to_epicycles (buffer : List ℂ) (num_terms : Nat) : List Epicycle :=
  ((candidate_epicycles buffer).mergeSort
    (fun a b => decide (b.amp ≤ a.amp))).take num_terms

/-- Modelled from the spec: the forward discrete Fourier transform of one
period of complex samples (§4.4 of the spec).  The transform itself is
computed by the external `rustfft` crate, which is not part of the
repository source. -/
noncomputable def dft (xs : List ℂ) : List ℂ :=
  (List.range xs.length).map fun k : Nat =>
    ∑ j in Finset.range xs.length,
      xs.getD j 0 *
        Complex.exp (-2 * Real.pi * Complex.I * (j : ℂ) * (k : ℂ) / (xs.length : ℂ))

/-- The spectral stage of `main` (lines 40–50): reinterpret the edge points
as complex samples, transform, and convert the spectrum to epicycles with
`NUM_EPICYCLE_TERMS`. -/
noncomputable def spectral_pipeline (edge_points : List (ℝ × ℝ)) : List Epicycle :=
  fft_to_epicycles (dft (edge_points.map fun p => (⟨p.1, p.2⟩ : ℂ))) NUM_EPICYCLE_TERMS

/-- Counterexample to claim C1: on an empty skeleton point set the spectral
stage of the pipeline raises no error at all — it silently computes the
empty epicycle list and `main` proceeds into the render loop with it. -/
theorem empty_input_silently_empty : spectral_pipeline [] = [] := by
  show fft_to_epicycles (dft []) NUM_EPICYCLE_TERMS = []
  rw [show dft [] = [] from rfl, fft_to_epicycles,
    show candidate_epicycles [] = [] from rfl, List.mergeSort_nil, List.take_nil]

/-- Claim C1 (amended): for a length-zero spectral buffer the code signals
no error: `fft_to_epicycles` returns the empty epicycle list for every term
count, and no `n == 0` check exists anywhere in the pipeline. -/
theorem fft_to_epicycles_empty (num_terms : Nat) :
    fft_to_epicycles [] num_terms = [] := by
  rw [fft_to_epicycles, show candidate_epicycles [] = [] from rfl, List.mergeSort_nil,
    List.take_nil]

/-- Claim C4: for an `n`-point spectrum (`n ≥ 1`) and every bin `k < n`,
the derived epicycle has the signed harmonic frequency — `k` at or below
the Nyquist index `n / 2`, and the negative `k − n` above it — amplitude
`|c| / n`, and phase `arg c` lying in `(−π, π]`. -/
theorem epicycle_of_bin_correct (n k : Nat) (c : ℂ) (hn : 1 ≤ n) (hk : k < n) :
    (k ≤ n / 2 → (epicycle_of_bin n k c).freq = (k : ℝ)) ∧
      (n / 2 < k → (epicycle_of_bin n k c).freq = (((k : ℤ) - (n : ℤ) : ℤ) : ℝ) ∧
        (epicycle_of_bin n k c).freq < 0) ∧
      (epicycle_of_bin n k c).amp = Complex.abs c / (n : ℝ) ∧
      (epicycle_of_bin n k c).phase = Complex.arg c ∧
      (epicycle_of_bin n k c).phase ∈ Set.Ioc (-Real.pi) Real.pi := by
  refine ⟨fun h => ?_, fun h => ?_, rfl, rfl, Complex.arg_mem_Ioc c⟩
  · simp [epicycle_of_bin, h]
  · have hnle : ¬ k ≤ n / 2 := by omega
    have hfreq : (epicycle_of_bin n k c).freq = (((k : ℤ) - (n : ℤ) : ℤ) : ℝ) := by
      simp [epicycle_of_bin, hnle]
    refine ⟨hfreq, ?_⟩
    rw [hfreq]
    have : ((k : ℤ) - (n : ℤ)) < 0 := by omega
    exact_mod_cast this

/-- Witness for C4: bin 2 of a 3-point spectrum lies above the Nyquist
index, so its signed frequency is negative. -/
theorem epicycle_of_bin_correct_witness : (epicycle_of_bin 3 2 Complex.I).freq < 0 :=
  ((epicycle_of_bin_correct 3 2 Complex.I (by norm_num) (by norm_num)).2.1 (by norm_num)).2

/-- Claim C5: every epicycle returned by `fft_to_epicycles` has amplitude
strictly above `MIN_EPICYCLE_AMPLITUDE`; no bin whose amplitude strictly
exceeds the threshold is missing from the pre-truncation candidate list;
the returned list is sorted by amplitude descending; and its length is at
most `min num_terms (number of bins passing the threshold)`. -/
theorem fft_to_epicycles_correct (buffer : List ℂ) (num_terms : Nat) :
    (∀ e ∈ fft_to_epicycles buffer num_terms, MIN_EPICYCLE_AMPLITUDE < e.amp) ∧
      (∀ k, k < buffer.length →
        MIN_EPICYCLE_AMPLITUDE < (epicycle_of_bin buffer.length k (buffer.getD k 0)).amp →
        epicycle_of_bin buffer.length k (buffer.getD k 0) ∈ candidate_epicycles buffer) ∧
      List.Sorted (fun a b : Epicycle => b.amp ≤ a.amp)
        (fft_to_epicycles buffer num_terms) ∧
      (fft_to_epicycles buffer num_terms).length ≤
        min num_terms (candidate_epicycles buffer).length := by
  refine ⟨fun e he => ?_, fun k hk hamp => ?_, ?_, ?_⟩
  · rw [fft_to_epicycles] at he
    have hmem := List.mem_mergeSort.mp (List.mem_of_mem_take he)
    have := (List.mem_filter.mp hmem).2
    exact of_decide_eq_true this
  · have hgetD : buffer.getD k 0 = buffer[k] := by
      rw [List.getD_eq_getElem?_getD, List.getElem?_eq_getElem hk]
      rfl
    rw [candidate_epicycles, List.mem_filter]
    refine ⟨List.mem_map.mpr ⟨(k, buffer[k]), ?_, by rw [hgetD]⟩, decide_eq_true hamp⟩
    have hlen : k < buffer.enum.length := by
      rw [List.enum_length]
      exact hk
    have := List.getElem_enum buffer k hlen
    rw [← this]
    exact List.getElem_mem hlen
  · have htrans : ∀ a b c : Epicycle, decide (b.amp ≤ a.amp) = true →
        decide (c.amp ≤ b.amp) = true → decide (c.amp ≤ a.amp) = true := by
      intro a b c h1 h2
      exact decide_eq_true (le_trans (of_decide_eq_true h2) (of_decide_eq_true h1))
    have htotal : ∀ a b : Epicycle,
        (decide (b.amp ≤ a.amp) || decide (a.amp ≤ b.amp)) = true := by
      intro a b
      rcases le_total b.amp a.amp with h | h
      · rw [decide_eq_true h, Bool.true_or]
      · rw [decide_eq_true h, Bool.or_true]
    have hsorted := List.sorted_mergeSort htrans htotal (candidate_epicycles buffer)
    have hsub := List.Pairwise.sublist (List.take_sublist num_terms
      ((candidate_epicycles buffer).mergeSort (fun a b => decide (b.amp ≤ a.amp)))) hsorted
    exact hsub.imp fun h => of_decide_eq_true h
  · rw [fft_to_epicycles, List.length_take, List.length_mergeSort]

/-- Witness for C5: with the one-coefficient buffer `[I]` the bin-0
epicycle passes the amplitude filter, so it appears in the candidate
list. -/
theorem fft_to_epicycles_correct_witness :
    epicycle_of_bin 1 0 (([Complex.I] : List ℂ).getD 0 0) ∈
      candidate_epicycles [Complex.I] :=
  (fft_to_epicycles_correct [Complex.I] 1).2.1 0 (by norm_num)
    (by
      have hamp : (epicycle_of_bin ([Complex.I] : List ℂ).length 0
          (([Complex.I] : List ℂ).getD 0 0)).amp = 1 := by
        simp [epicycle_of_bin]
      rw [hamp, MIN_EPICYCLE_AMPLITUDE]
      norm_num)

theorem dft_singleton (c : ℂ) : dft [c] = [c] := by
  rw [dft, show ([c] : List ℂ).length = 1 from rfl, show List.range 1 = [0] from rfl,
    List.map_singleton, Finset.sum_range_one]
  norm_num [Complex.exp_zero]

theorem mergeSort_singleton (e : Epicycle) (le : Epicycle → Epicycle → Bool) :
    List.mergeSort [e] le = [e] := by
  rw [List.mergeSort]

/-- Counterexample to claim C9: the single-point path consisting of the
origin (a skeleton pixel at the image centre) yields no epicycle at all —
its only bin has amplitude 0, which the strict amplitude filter drops, so
the returned list is empty rather than a one-element list. -/
theorem single_point_epicycle_cex : spectral_pipeline [((0 : ℝ), (0 : ℝ))] = [] := by
  show fft_to_epicycles (dft [(0 : ℂ)]) NUM_EPICYCLE_TERMS = []
  rw [dft_singleton, fft_to_epicycles]
  have hzero : candidate_epicycles [(0 : ℂ)] = [] := by
    rw [candidate_epicycles]
    have hampz : (epicycle_of_bin 1 0 (0 : ℂ)).amp = 0 := by
      simp [epicycle_of_bin]
    have hno : ¬ MIN_EPICYCLE_AMPLITUDE < (epicycle_of_bin 1 0 (0 : ℂ)).amp := by
      rw [hampz, MIN_EPICYCLE_AMPLITUDE]
      norm_num
    simp [hno]
  rw [hzero, List.mergeSort_nil, List.take_nil]

/-- Claim C9 (amended): a single-point ordered path yields exactly one
epicycle with frequency 0, amplitude equal to the magnitude of the sample
and phase equal to the sample's angle — provided that magnitude strictly
exceeds `MIN_EPICYCLE_AMPLITUDE` (otherwise the amplitude filter returns
the empty list, as the counterexample shows). -/
theorem single_point_epicycle (x y : ℝ)
    (h : MIN_EPICYCLE_AMPLITUDE < Complex.abs ⟨x, y⟩) :
    spectral_pipeline [(x, y)] =
      [{ freq := 0, amp := Complex.abs ⟨x, y⟩, phase := Complex.arg ⟨x, y⟩ }] := by
  show fft_to_epicycles (dft [(⟨x, y⟩ : ℂ)]) NUM_EPICYCLE_TERMS = _
  rw [dft_singleton, fft_to_epicycles]
  have hcand : candidate_epicycles [(⟨x, y⟩ : ℂ)] = [epicycle_of_bin 1 0 ⟨x, y⟩] := by
    rw [candidate_epicycles]
    have hamp1 : (epicycle_of_bin 1 0 (⟨x, y⟩ : ℂ)).amp = Complex.abs ⟨x, y⟩ := by
      simp [epicycle_of_bin]
    have hyes : MIN_EPICYCLE_AMPLITUDE < (epicycle_of_bin 1 0 (⟨x, y⟩ : ℂ)).amp := by
      rw [hamp1]
      exact h
    simp [hyes]
  rw [hcand, mergeSort_singleton, List.take_of_length_le (by norm_num [NUM_EPICYCLE_TERMS])]
  have hbin : epicycle_of_bin 1 0 (⟨x, y⟩ : ℂ) =
      { freq := 0, amp := Complex.abs ⟨x, y⟩, phase := Complex.arg ⟨x, y⟩ } := by
    simp [epicycle_of_bin]
  rw [hbin]

/-- Witness for C9 (amended): the single sample `(0, 1)` (the complex unit
`I`, magnitude 1) yields exactly the frequency-0 epicycle. -/
theorem single_point_epicycle_witness :
    spectral_pipeline [((0 : ℝ), (1 : ℝ))] =
      [{ freq := 0, amp := Complex.abs ⟨0, 1⟩, phase := Complex.arg ⟨0, 1⟩ }] :=
  single_point_epicycle 0 1 (by
    rw [show Complex.abs ⟨0, 1⟩ = Complex.abs Complex.I from rfl, Complex.abs_I,
      MIN_EPICYCLE_AMPLITUDE]
    norm_num)

/-! ### NaN-aware model of the amplitude comparison (claim C10)

Real amplitudes cannot be NaN, so the definedness of the sort comparator is
modelled over `Option ℚ`: `none` is an `f32` NaN, `some q` a numeric value
(idealized as an exact rational).  Every `f32` comparison involving a NaN
is false, and `PartialOrd` comparison on `f32` is undefined (`None`)
exactly when an operand is NaN — these are the only `f32` facts the safety
argument of the sort in `fft_to_epicycles` rests on. -/

/-- An epicycle whose `f32` fields may be NaN (`none`). -/
structure EpicycleF where
  freq : Option ℚ
  amp : Option ℚ
  phase : Option ℚ
deriving DecidableEq

/-- The `f32` comparison `a > b`: false whenever an operand is NaN. -/
def f32Gt : Option ℚ → Option ℚ → Bool
  | some a, some b => decide (b < a)
  | _, _ => false

/-- The total-order query on `f32` used by `sort_by` (the comparison that
the code `unwrap`s): undefined (`none`) iff an operand is NaN. -/
def cmpF32 : Option ℚ → Option ℚ → Option Ordering
  | some a, some b => some (compare a b)
  | _, _ => none

/-- `MIN_EPICYCLE_AMPLITUDE = 0.001` in the exact model. -/
def MIN_AMPLITUDE_Q : ℚ := 1 / 1000

/-- The `.filter(|e| e.amp > MIN_EPICYCLE_AMPLITUDE)` stage of
`fft_to_epicycles` over NaN-aware amplitudes. -/
def filter_epicyclesF (l : List EpicycleF) : List EpicycleF :=
  l.filter fun e => f32Gt e.amp (some MIN_AMPLITUDE_Q)

/-- Claim C10: every epicycle that survives the strict amplitude filter has
a numeric (non-NaN) amplitude strictly above the threshold, so the
comparator comparing `b.amp` with `a.amp` that the sort `unwrap`s is
defined for every pair of filtered epicycles — the sort cannot panic. -/
theorem filtered_sort_comparison_defined (l : List EpicycleF) (a b : EpicycleF)
    (ha : a ∈ filter_epicyclesF l) (hb : b ∈ filter_epicyclesF l) :
    (∃ qa : ℚ, a.amp = some qa ∧ MIN_AMPLITUDE_Q < qa) ∧
      (cmpF32 b.amp a.amp).isSome = true := by
  have hfa := (List.mem_filter.mp ha).2
  have hfb := (List.mem_filter.mp hb).2
  cases hqa : a.amp with
  | none =>
    rw [hqa] at hfa
    simp [f32Gt] at hfa
  | some qa =>
    cases hqb : b.amp with
    | none =>
      rw [hqb] at hfb
      simp [f32Gt] at hfb
    | some qb =>
      rw [hqa] at hfa
      exact ⟨⟨qa, rfl, of_decide_eq_true hfa⟩, rfl⟩

/-- Witness for C10: a concrete one-element filtered list on which both
conjuncts evaluate. -/
theorem filtered_sort_comparison_defined_witness :
    (∃ qa : ℚ, (EpicycleF.mk (some 0) (some 1) (some 0)).amp = some qa ∧
      MIN_AMPLITUDE_Q < qa) ∧
      (cmpF32 (EpicycleF.mk (some 0) (some 1) (some 0)).amp
        (EpicycleF.mk (some 0) (some 1) (some 0)).amp).isSome = true :=
  filtered_sort_comparison_defined [EpicycleF.mk (some 0) (some 1) (some 0)] _ _
    (by
      have hlt : MIN_AMPLITUDE_Q < (1 : ℚ) := by
        rw [MIN_AMPLITUDE_Q]
        norm_num
      simp [filter_epicyclesF, f32Gt, hlt])
    (by
      have hlt : MIN_AMPLITUDE_Q < (1 : ℚ) := by
        rw [MIN_AMPLITUDE_Q]
        norm_num
      simp [filter_epicyclesF, f32Gt, hlt])
